import Mathlib

/-!
Verification of the reconciliation / diff engine of this repository
(`scripts/reconciliation/phase_b_diff.py` and
`scripts/reconciliation/validate_reconciliation.py`).

The Python code is shallowly embedded: cell values and column names are
`String`s, tabular data is lists of records, the ambient global `CONFIG`
is passed explicitly as arguments, rates are rationals, and the external
date parser (`pandas.to_datetime`) is an explicit function parameter.
-/

set_option maxRecDepth 4000

namespace Recon

/-- Whitespace trimming on both ends, modelling Python `str.strip()` for the
ASCII whitespace characters. -/
def trimChars (l : List Char) : List Char :=
  ((l.dropWhile Char.isWhitespace).reverse.dropWhile Char.isWhitespace).reverse

/-- Python `str.strip()` on `String`s. -/
def pyStrip (s : String) : String := String.mk (trimChars s.toList)

/-- Sentinel for canonical null values (`NULL_TOKEN` in `canonicalize_null`). -/
def NULL_TOKEN : String := "<NULL>"

/-- Embedding of `canonicalize_null` (phase_b_diff.py lines 206-225).  The
global `CONFIG["null_values"]` and `CONFIG["null_categories"]` are passed as
`nullValues` and `nullCategories`.  Returns `(is_null, canonical_value,
null_reason)` exactly as the Python triple. -/
def canonicalize_null (nullValues : List String)
    (nullCategories : List (String × String)) (value : String) :
    Bool × String × Option String :=
  let value_str := pyStrip value
  if value_str ∈ nullValues ∨ value_str = "" then
    let null_reason :=
      (((nullCategories.find? (fun p => p.1 == value_str)).map (·.2)).getD
        (if value_str = "" then "empty" else "unknown"))
    (true, NULL_TOKEN, some null_reason)
  else (false, value_str, none)

/-- Modelled from the spec's words (§4.2 Null Classifier), to be compared with
`canonicalize_null`: trim; the empty string classifies as null with reason
defaulting to "empty"; a configured null token classifies as null with reason
defaulting to "unknown"; anything else is non-null with the trimmed string as
canonical value and no reason. -/
def nullClassSpec (nullValues : List String)
    (nullCategories : List (String × String)) (value : String) :
    Bool × String × Option String :=
  let t := pyStrip value
  if t = "" then
    (true, NULL_TOKEN,
      some ((((nullCategories.find? (fun p => p.1 == t)).map (·.2)).getD "empty")))
  else if t ∈ nullValues then
    (true, NULL_TOKEN,
      some ((((nullCategories.find? (fun p => p.1 == t)).map (·.2)).getD "unknown")))
  else (false, t, none)

/-- Shorthand for the null test of `canonicalize_null` (its first component). -/
def isNullStr (nullValues : List String) (s : String) : Bool :=
  (canonicalize_null nullValues [] s).1

/-! ## Regression validator (validate_reconciliation.py) -/

/-- Verdict emitted per dataset by the match-rate regression check. -/
inductive Verdict
  | error
  | warning
deriving DecidableEq, Repr

/-- Embedding of the per-row match-rate check of `validate_summary`
(validate_reconciliation.py lines 101-121).  `baselineRate` is the recorded
historical rate for the dataset (`baseline_match_rates.get(rfmo)`, `none` when
no rate is recorded); rates and the threshold are modelled as rationals. -/
def matchRateCheck (baselineRate : Option ℚ) (currentRate maxDropPct : ℚ) :
    Option Verdict :=
  match baselineRate with
  | none => none
  | some br =>
    let dropPct := (br - currentRate) * 100
    if dropPct > maxDropPct then some Verdict.error
    else if dropPct > 0 then some Verdict.warning
    else none

/-! ## Null policy and the summary record (phase_b_diff.py lines 767-843) -/

/-- The `CONFIG["null_policy"]` toggles. -/
structure NullPolicy where
  countMatchNullAsPositive : Bool
  countInfoGainAsPositive : Bool
  countInfoLossAsNegative : Bool
deriving DecidableEq, Repr

/-- Per-dataset counts of the five diff classes. -/
structure ClassCounts where
  matchValue : Nat
  matchNull : Nat
  infoGain : Nat
  infoLoss : Nat
  changedValue : Nat
deriving DecidableEq, Repr

/-- `positive_count` (phase_b_diff.py lines 769-775). -/
def positiveCount (p : NullPolicy) (c : ClassCounts) : Nat :=
  c.matchValue + (if p.countMatchNullAsPositive then c.matchNull else 0)
    + (if p.countInfoGainAsPositive then c.infoGain else 0)

/-- `negative_count` (phase_b_diff.py lines 777-780).  This value is computed
by `compare_files` and never read afterwards. -/
def negativeCount (p : NullPolicy) (c : ClassCounts) : Nat :=
  c.changedValue + (if p.countInfoLossAsNegative then c.infoLoss else 0)

/-- One data row of the aggregate `_summary.csv` (phase_b_diff.py line 841-843). -/
structure SummaryRow where
  total : Nat
  matched : Nat
  baselineOnly : Nat
  pipelineOnly : Nat
  mismatched : Nat
  matchRate : ℚ
  nullAwareMatchRate : ℚ
  countMatchValue : Nat
  countMatchNull : Nat
  countInfoGain : Nat
  countInfoLoss : Nat
  countChangedValue : Nat
  alignedByJoinKey : Nat
  alignedByComposite : Nat
  alignedByRowIndex : Nat
deriving DecidableEq, Repr

/-- Builds the summary record written by `compare_files` (lines 782-788 and
841-843): `match_rate = matched/total` (0 when `total = 0`),
`null_aware_match_rate = positive_count / both.shape[0]` (0 when empty), the
five class counts and the three per-stage aligned counts.  Note that
`negative_count` appears in no field. -/
def mkSummaryRow (p : NullPolicy) (c : ClassCounts)
    (total matched bOnly pOnly mism bothCount ajk ac ari : Nat) : SummaryRow :=
  { total := total
    matched := matched
    baselineOnly := bOnly
    pipelineOnly := pOnly
    mismatched := mism
    matchRate := if total = 0 then 0 else (matched : ℚ) / (total : ℚ)
    nullAwareMatchRate :=
      if bothCount = 0 then 0 else (positiveCount p c : ℚ) / (bothCount : ℚ)
    countMatchValue := c.matchValue
    countMatchNull := c.matchNull
    countInfoGain := c.infoGain
    countInfoLoss := c.infoLoss
    countChangedValue := c.changedValue
    alignedByJoinKey := ajk
    alignedByComposite := ac
    alignedByRowIndex := ari }

/-! ## Summary file shape (phase_b_diff.py lines 332-334, 874-875) -/

/-- First line appended to `summary_lines` (line 333): it embeds the wall-clock
timestamp `datetime.utcnow().isoformat()`. -/
def generatedLine (now : String) : String := "Generated: " ++ now ++ "Z\n"

/-- Column-header line of the aggregate summary CSV (line 334). -/
def summaryHeaderLine : String :=
  "baseline_file,current_file,total_cells,matched,baseline_only,pipeline_only,mismatched,match_rate,null_aware_match_rate,count_match_value,count_match_null,count_info_gain,count_info_loss,count_changed_value,aligned_by_join_key,aligned_by_composite,aligned_by_row_index\n"

/-- Contents of `_summary.csv` (`summary_lines` written out by `writelines`,
lines 332-334 and 874-875), as a function of the run timestamp and of the
per-dataset data lines.  The data lines are pure functions of the inputs and
configuration; the timestamp is the only run-dependent input. -/
def summaryCsv (now : String) (dataLines : List String) : List String :=
  generatedLine now :: summaryHeaderLine :: dataLines

/-! ## Row alignment cascade (phase_b_diff.py `compare_files`, lines 412-547)

A `LRow` models one logical row of a side together with the columns of its
long-form cell records: `baseline_to_long` / `normalize_pipeline` broadcast the
extracted `join_key` and `composite_key` of a row to every cell record of that
row, so a row-grouped representation is faithful.  `cols` lists the
`column_name` of each cell record of the row (with multiplicity). -/

/-- Merge indicator of `pandas.merge(..., indicator=True)`. -/
inductive MTag
  | both
  | left_only
  | right_only
deriving DecidableEq, Repr

/-- One row of a side, with its key columns broadcast from the row extraction. -/
structure LRow where
  idx : Nat
  jk : Option String
  ck : Option String
  cols : List String
deriving DecidableEq, Repr

/-- The slice of `CONFIG` that drives the alignment cascade. -/
structure AlignConfig where
  joinKeyCol : Option String
  compSets : List (List String)
  nullValues : List String
deriving Repr

/-- The `_has_key` predicate of `compare_files` (lines 414-416): the key is
present (`notna`), not the empty string, and not a canonical null. -/
def hasKeyOpt (nullValues : List String) : Option String → Bool
  | none => false
  | some s => (!(s == "")) && !(isNullStr nullValues s)

/-- Rows of a side whose stage key passes `_has_key` (`base_jk` / `base_ck`). -/
def keyedRows (nullValues : List String) (sel : LRow → Option String)
    (rows : List LRow) : List LRow :=
  rows.filter (fun r => hasKeyOpt nullValues (sel r))

/-- Key `k` is duplicated within a side: at least two rows of the keyed subset
carry it (the `duplicated(keep=False)` computation over
`[['row_index', 'join_key']].drop_duplicates()`, lines 438-445). -/
def dupKey (nullValues : List String) (sel : LRow → Option String)
    (rows : List LRow) (k : String) : Bool :=
  decide (2 ≤ (keyedRows nullValues sel rows).countP (fun r => sel r == some k))

/-- A row's key is free of duplication on both sides (`~isin(dup_any)` with
`dup_any = dup_base_keys | dup_pipe_keys`, lines 446-450). -/
def dupFreePred (nullValues : List String) (sel : LRow → Option String)
    (bRows pRows : List LRow) : LRow → Bool := fun r =>
  match sel r with
  | some k => !(dupKey nullValues sel bRows k || dupKey nullValues sel pRows k)
  | none => false

/-- Duplicate-aware selection of the rows a key stage aligns
(`base_jk_unique` / `pipe_jk_unique`, lines 448-450, and the composite
analogue, lines 503-504): keyed rows whose key is not duplicated on either
side. -/
def uniqueKeyed (nullValues : List String) (sel : LRow → Option String)
    (bRows pRows : List LRow) : List LRow × List LRow :=
  ((keyedRows nullValues sel bRows).filter (dupFreePred nullValues sel bRows pRows),
   (keyedRows nullValues sel pRows).filter (dupFreePred nullValues sel bRows pRows))

/-- Concatenation of the images of `f`, used to build merge results. -/
def concatMap (f : α → List β) : List α → List β
  | [] => []
  | a :: t => f a ++ concatMap f t

/-- Number of cell records named `c` on `side` in rows whose stage key is `k`:
the multiplicity with which one cell of the other side matches in an outer
merge on `(key, column_name)`. -/
def matchCountFor {κ : Type} [DecidableEq κ] (sel : LRow → Option κ)
    (side : List LRow) (k : Option κ) (c : String) : Nat :=
  ((side.filter (fun p => decide (sel p = k))).map (fun p => p.cols.count c)).sum

/-- Merge-indicator tags of one outer-merge part (`merge(..., how='outer',
indicator=True)` on `(key, column_name)`, lines 452-458, 506-512 and 535-541):
each matching cell pair contributes a `both` record; an unmatched cell of the
left (resp. right) side contributes a `left_only` (resp. `right_only`)
record. -/
def mergeTags {κ : Type} [DecidableEq κ] (sel : LRow → Option κ)
    (bu pu : List LRow) : List MTag :=
  (concatMap (fun b => concatMap (fun c =>
      let m := matchCountFor sel pu (sel b) c
      if m = 0 then [MTag.left_only] else List.replicate m MTag.both) b.cols) bu)
  ++ (concatMap (fun p => concatMap (fun c =>
      let m := matchCountFor sel bu (sel p) c
      if m = 0 then [MTag.right_only] else []) p.cols) pu)

/-- Stage-1 guard (lines 425-431): a join-key column is configured and at
least one row on each side has a non-`None` extracted join key.  (When the
join-key column is absent from a side, every extracted key of that side is
`None`, so the `notna().any()` test is exactly `any isSome`.) -/
def stage1Enabled (cfg : AlignConfig) (base pipe : List LRow) : Bool :=
  cfg.joinKeyCol.isSome && base.any (fun r => r.jk.isSome)
    && pipe.any (fun r => r.jk.isSome)

/-- Stage-2 guard (line 488): composite key sets are configured and the
baseline long frame carries a `composite_key` column (which it does exactly
when it has at least one record). -/
def stage2Enabled (cfg : AlignConfig) (base : List LRow) : Bool :=
  !cfg.compSets.isEmpty && !base.isEmpty

/-- Removal of consumed rows from the remaining pool by `row_index` membership
(lines 465-468 and 516-519). -/
def removeByIdx (used : List LRow) (rows : List LRow) : List LRow :=
  rows.filter (fun r => !(used.map (fun u => u.idx)).contains r.idx)

/-- Result of the three-stage cascade: the rows each stage consumed on each
side, the merge-indicator tags of each stage's outer merge, and the per-stage
`aligned_counts` (lines 420, 462, 514, 543). -/
structure AlignResult where
  s1Base : List LRow
  s1Pipe : List LRow
  s2Base : List LRow
  s2Pipe : List LRow
  s3Base : List LRow
  s3Pipe : List LRow
  tags1 : List MTag
  tags2 : List MTag
  tags3 : List MTag
  alignedJoinKey : Nat
  alignedComposite : Nat
  alignedRowIndex : Nat
deriving Repr

/-- Stage key of the join-key stage: the broadcast `join_key` column. -/
def selJK : LRow → Option String := fun r => r.jk

/-- Stage key of the composite stage: the broadcast `composite_key` column. -/
def selCK : LRow → Option String := fun r => r.ck

/-- Stage key of the positional fallback: the `row_index` itself. -/
def selIdx : LRow → Option Nat := fun r => some r.idx

/-- Baseline rows the join-key stage aligns (`base_jk_unique`, line 449);
empty when the stage guard fails. -/
def stage1BaseSel (cfg : AlignConfig) (base pipe : List LRow) : List LRow :=
  if stage1Enabled cfg base pipe then (uniqueKeyed cfg.nullValues selJK base pipe).1
  else []

/-- Pipeline rows the join-key stage aligns (`pipe_jk_unique`, line 450). -/
def stage1PipeSel (cfg : AlignConfig) (base pipe : List LRow) : List LRow :=
  if stage1Enabled cfg base pipe then (uniqueKeyed cfg.nullValues selJK base pipe).2
  else []

/-- `base_remaining` after stage 1 (line 467). -/
def rem1Base (cfg : AlignConfig) (base pipe : List LRow) : List LRow :=
  removeByIdx (stage1BaseSel cfg base pipe) base

/-- `pipe_remaining` after stage 1 (line 468). -/
def rem1Pipe (cfg : AlignConfig) (base pipe : List LRow) : List LRow :=
  removeByIdx (stage1PipeSel cfg base pipe) pipe

/-- Baseline rows the composite stage aligns (`base_ck_unique`, line 503). -/
def stage2BaseSel (cfg : AlignConfig) (base pipe : List LRow) : List LRow :=
  if stage2Enabled cfg base then
    (uniqueKeyed cfg.nullValues selCK (rem1Base cfg base pipe) (rem1Pipe cfg base pipe)).1
  else []

/-- Pipeline rows the composite stage aligns (`pipe_ck_unique`, line 504). -/
def stage2PipeSel (cfg : AlignConfig) (base pipe : List LRow) : List LRow :=
  if stage2Enabled cfg base then
    (uniqueKeyed cfg.nullValues selCK (rem1Base cfg base pipe) (rem1Pipe cfg base pipe)).2
  else []

/-- `base_remaining` after stage 2 (line 518): consumed by the positional
fallback. -/
def rem2Base (cfg : AlignConfig) (base pipe : List LRow) : List LRow :=
  removeByIdx (stage2BaseSel cfg base pipe) (rem1Base cfg base pipe)

/-- `pipe_remaining` after stage 2 (line 519). -/
def rem2Pipe (cfg : AlignConfig) (base pipe : List LRow) : List LRow :=
  removeByIdx (stage2PipeSel cfg base pipe) (rem1Pipe cfg base pipe)

/-- The three-stage alignment cascade of `compare_files` (lines 412-547):
join-key merge with duplicate exclusion, composite-key merge with duplicate
exclusion on the remaining rows, positional merge on the rest.
`aligned_counts[stage]` is the number of `both` records of that stage's merge. -/
def alignAll (cfg : AlignConfig) (base pipe : List LRow) : AlignResult :=
  let tags1 := mergeTags selJK (stage1BaseSel cfg base pipe) (stage1PipeSel cfg base pipe)
  let tags2 := mergeTags selCK (stage2BaseSel cfg base pipe) (stage2PipeSel cfg base pipe)
  let tags3 := mergeTags selIdx (rem2Base cfg base pipe) (rem2Pipe cfg base pipe)
  { s1Base := stage1BaseSel cfg base pipe
    s1Pipe := stage1PipeSel cfg base pipe
    s2Base := stage2BaseSel cfg base pipe
    s2Pipe := stage2PipeSel cfg base pipe
    s3Base := rem2Base cfg base pipe
    s3Pipe := rem2Pipe cfg base pipe
    tags1 := tags1
    tags2 := tags2
    tags3 := tags3
    alignedJoinKey := tags1.count MTag.both
    alignedComposite := tags2.count MTag.both
    alignedRowIndex := tags3.count MTag.both }

/-! ## Null-aware diff classification (phase_b_diff.py lines 725-758) -/

/-- The five sequential mask assignments over the `both` subset (lines
731-758), starting from `'unknown'`: both non-null and equal, both null,
baseline null only, pipeline null only, both non-null and unequal.  Each later
mask overwrites the class where it holds, exactly as the sequence of
`both.loc[mask, 'diff_class'] = ...` statements. -/
def diffClass (isNullB isNullP : Bool) (cmpB cmpP : String) : String :=
  let c := "unknown"
  let c := if (!isNullB && !isNullP) && (cmpB == cmpP) then "match_value" else c
  let c := if isNullB && isNullP then "match_null" else c
  let c := if isNullB && !isNullP then "info_gain" else c
  let c := if !isNullB && isNullP then "info_loss" else c
  let c := if (!isNullB && !isNullP) && (cmpB != cmpP) then "changed_value" else c
  c

/-- Classification is applied only to the `both` subset (lines 727 and 731):
cells present on a single side (`left_only` / `right_only`) get no diff
class. -/
def classifyAligned (tag : MTag) (isNullB isNullP : Bool) (cmpB cmpP : String) :
    Option String :=
  if tag = MTag.both then some (diffClass isNullB isNullP cmpB cmpP) else none

/-- Modelled from the spec's words (§3 `CellDiffClassification`), to be
compared with `diffClass`: a decision tree on the two null statuses and
normalized-value equality. -/
def diffClassSpec (isNullB isNullP : Bool) (cmpB cmpP : String) : String :=
  if isNullB && isNullP then "match_null"
  else if isNullB && !isNullP then "info_gain"
  else if !isNullB && isNullP then "info_loss"
  else if cmpB == cmpP then "match_value"
  else "changed_value"

/-! ## Date normalization (phase_b_diff.py lines 612-644)

`pandas.to_datetime(..., errors='coerce', dayfirst=...)` followed by
`strftime('%Y-%m-%d')` is an external library call; it is modelled as an
explicit function `String → Option String` (`none` when the parse fails),
one function per parse scheme (month-first / day-first). -/

/-- A parse scheme agrees on a compared pair when both sides parse and the two
ISO strings are equal (`eq_md` / `eq_dm`, lines 633 and 637). -/
def isoAgree (parse : String → Option String) (b p : String) : Bool :=
  match parse b, parse p with
  | some x, some y => x == y
  | _, _ => false

/-- The `np.where` ladder of lines 639-644: adopt the month-first ISO strings
when the month-first scheme agrees; otherwise adopt the day-first ISO strings
when that scheme agrees; otherwise leave the compared pair unchanged. -/
def normalizeDates (parseMD parseDM : String → Option String) (b p : String) :
    String × String :=
  if isoAgree parseMD b p then ((parseMD b).getD b, (parseMD p).getD p)
  else if isoAgree parseDM b p then ((parseDM b).getD b, (parseDM p).getD p)
  else (b, p)

/-! ## Composite keys (phase_b_diff.py `baseline_to_long` lines 263-287,
`normalize_pipeline` lines 364-396)

`lookup` maps a canonical column name to the row's raw value for it, `none`
when the column is absent from the schema.  In `baseline_to_long` an absent
column skips the whole set (`continue`); in `normalize_pipeline` an absent
column yields `""` which fails the null check — both produce the same
skip-to-next-set outcome modelled here. -/

/-- Collects the stripped constituent values of one composite-column set;
`none` as soon as a constituent is absent, empty after stripping, or a
canonical null (`missing = True`, lines 276-283 / 380-386). -/
def partsForSet (nullValues : List String) (lookup : String → Option String) :
    List String → Option (List String)
  | [] => some []
  | c :: rest =>
    match lookup c with
    | none => none
    | some raw =>
      let v := pyStrip raw
      if v = "" ∨ isNullStr nullValues v = true then none
      else (partsForSet nullValues lookup rest).map (fun ps => v :: ps)

/-- The per-row composite key: the first configured set whose parts are all
present yields `"||".join(parts)` (lines 270-287 / 377-389); a set with no
parts (or an incomplete set) falls through to the next; no set → no key. -/
def compositeForRow (nullValues : List String)
    (lookup : String → Option String) : List (List String) → Option String
  | [] => none
  | s :: rest =>
    match partsForSet nullValues lookup s with
    | some parts =>
      if parts.isEmpty then compositeForRow nullValues lookup rest
      else some (String.intercalate "||" parts)
    | none => compositeForRow nullValues lookup rest

/-- One constituent column is usable for a row: present in the schema with a
stripped value that is neither empty nor a canonical null. -/
def colOK (nullValues : List String) (lookup : String → Option String)
    (c : String) : Bool :=
  match lookup c with
  | none => false
  | some raw =>
    let v := pyStrip raw
    !(v == "") && !(isNullStr nullValues v)

/-- A composite set is complete for a row when it is nonempty and every
constituent column is present with a non-null, non-empty stripped value. -/
def setCompleteB (nullValues : List String) (lookup : String → Option String)
    (s : List String) : Bool :=
  !s.isEmpty && s.all (colOK nullValues lookup)

/-- The stripped value a complete set contributes for column `c`. -/
def setValOf (lookup : String → Option String) (c : String) : String :=
  pyStrip ((lookup c).getD "")

/-! ## Column-name canonicalization (phase_b_diff.py `canon_col_name`,
lines 228-239) -/

/-- Uppercase ASCII letter or digit: the character class the regex
`[^A-Z0-9]+` of line 237 leaves untouched (after the `.upper()` of line 235). -/
def isAlnumU (c : Char) : Bool :=
  (decide ('A' ≤ c) && decide (c ≤ 'Z')) || (decide ('0' ≤ c) && decide (c ≤ '9'))

/-- Replace every run of non-alphanumeric characters by a single underscore
(the `re.sub(r"[^A-Z0-9]+", "_", s)` of line 237).  `prevNon` records whether
the previous character belonged to a non-alphanumeric run. -/
def collapseAux : Bool → List Char → List Char
  | _, [] => []
  | prevNon, c :: rest =>
    if isAlnumU c then c :: collapseAux false rest
    else if prevNon then collapseAux true rest
    else '_' :: collapseAux true rest

/-- Remove leading underscores (left half of `.strip("_")`, line 238). -/
def lstripU (l : List Char) : List Char := l.dropWhile (fun c => c == '_')

/-- Remove trailing underscores (right half of `.strip("_")`, line 238). -/
def rstripU : List Char → List Char
  | [] => []
  | c :: rest =>
    let r := rstripU rest
    if r.isEmpty && c == '_' then [] else c :: r

/-- The alias-free part of `canon_col_name` (lines 235-238): uppercase
(`str.upper()` modelled by `Char.toUpper`, exact on ASCII; non-ASCII letters
are replaced by underscores by the following collapse either way), collapse
non-alphanumeric runs to single underscores, strip underscores from both
ends. -/
def canonBase (l : List Char) : List Char :=
  rstripU (lstripU (collapseAux false (l.map Char.toUpper)))

/-- Invariant of collapsed character lists: every character is alphanumeric
or an underscore, and no underscore follows another (`afterU` records whether
the previous character was an underscore). -/
def collapsedB : Bool → List Char → Bool
  | _, [] => true
  | afterU, c :: rest =>
    if isAlnumU c then collapsedB false rest
    else (c == '_') && !afterU && collapsedB true rest

/-- `canon_col_name` (lines 228-239) with the global `CONFIG["aliases"]`
passed explicitly as an association list: the base transform followed by the
alias-map lookup (`CONFIG["aliases"].get(s, s)`). -/
def canon_col_name (aliases : List (String × String)) (s : String) : String :=
  let b := String.mk (canonBase s.toList)
  ((aliases.find? (fun p => p.1 == b)).map (fun p => p.2)).getD b

/-! ## Concrete example data used by witnesses and counterexamples -/

/-- Default null-token list (`CONFIG["null_values"]`, line 58). -/
def defaultNullValues : List String := ["", "N/A", "NA", "NONE", "NULL", "—", "-"]

/-- Configuration with neither join key nor composite sets: only the
positional stage engages. -/
def cfgNoKeys : AlignConfig := { joinKeyCol := none, compSets := [], nullValues := defaultNullValues }

/-- Configuration with a join key and no composite sets. -/
def cfgJoinKey : AlignConfig := { joinKeyCol := some "IMO", compSets := [], nullValues := defaultNullValues }

/-- Two baseline rows; row 0 has five cells, one of them (column X) with no
pipeline counterpart. -/
def baseEx : List LRow :=
  [{ idx := 0, jk := none, ck := none, cols := ["A", "B", "C", "D", "X"] },
   { idx := 1, jk := none, ck := none, cols := ["A", "B", "C"] }]

/-- Two pipeline rows; row 1 has a cell (column Y) with no baseline
counterpart. -/
def pipeEx : List LRow :=
  [{ idx := 0, jk := none, ck := none, cols := ["A", "B", "C", "D"] },
   { idx := 1, jk := none, ck := none, cols := ["A", "B", "C", "Y"] }]

/-- Two baseline rows carrying the same join-key value "K". -/
def baseDup : List LRow :=
  [{ idx := 0, jk := some "K", ck := none, cols := ["A"] },
   { idx := 1, jk := some "K", ck := none, cols := ["A"] }]

/-- One pipeline row with join-key value "K". -/
def pipeDup : List LRow :=
  [{ idx := 5, jk := some "K", ck := none, cols := ["A"] }]

/-- Two pipeline rows carrying the same join-key value "P". -/
def pipeDup2 : List LRow :=
  [{ idx := 5, jk := some "P", ck := none, cols := ["A"] },
   { idx := 6, jk := some "P", ck := none, cols := ["A"] }]

/-- Row lookup of the spec's §8 composite example: IMO is empty,
VESSEL_NAME is "FOO". -/
def lookupFoo : String → Option String := fun c =>
  if c = "IMO" then some "" else if c = "VESSEL_NAME" then some "FOO" else none

/-- Month-first parse stub for the date-normalization witness: both sides
resolve to the same ISO string. -/
def parseMDW : String → Option String := fun s =>
  if s = "01/02/2023" ∨ s = "2023-02-01" then some "2023-02-01" else none

/-- Day-first parse stub for the date-normalization witness. -/
def parseDMW : String → Option String := fun s =>
  if s = "01/02/2023" then some "2023-01-02"
  else if s = "2023-02-01" then some "2023-02-01" else none

end Recon

namespace Recon

/-! ## Theorems -/

/-- C7: `classify_null` is total (every string is classified as null or
non-null, never both), and agrees pointwise with the specification's
description: trim, then empty or configured null token gives
`(True, "<NULL>", reason)` with the reason looked up by exact token match and
defaulting to "empty" for the empty string and "unknown" for other null
tokens; otherwise `(False, trimmed, None)`. -/
theorem canonicalize_null_matches_spec :
    ∀ (nv : List String) (nc : List (String × String)) (v : String),
      canonicalize_null nv nc v = nullClassSpec nv nc v ∧
      (((canonicalize_null nv nc v).1 = true ∧
          (canonicalize_null nv nc v).2.1 = NULL_TOKEN ∧
          ((canonicalize_null nv nc v).2.2).isSome = true) ∨
        ((canonicalize_null nv nc v).1 = false ∧
          (canonicalize_null nv nc v).2.1 = pyStrip v ∧
          (canonicalize_null nv nc v).2.2 = none)) ∧
      ¬((canonicalize_null nv nc v).1 = true ∧ (canonicalize_null nv nc v).1 = false) := by
  intro nv nc v
  by_cases h1 : pyStrip v = ""
  · simp [canonicalize_null, nullClassSpec, h1]
  · by_cases h2 : pyStrip v ∈ nv
    · simp [canonicalize_null, nullClassSpec, h1, h2]
    · simp [canonicalize_null, nullClassSpec, h1, h2]

/-- C1: over the aligned (`both`) cells, the sequential mask assignment of
`compare_files` yields exactly the spec's five-way classification; the five
defining conditions are mutually exclusive and total (exactly one holds for
any combination of null statuses and value equality); and a cell present on
only one side receives no diff class. -/
theorem diff_classification_exact :
    ∀ (tag : MTag) (nb np : Bool) (cb cp : String),
      classifyAligned tag nb np cb cp =
        (if tag = MTag.both then some (diffClassSpec nb np cb cp) else none) ∧
      diffClassSpec nb np cb cp ∈
        ["match_value", "match_null", "info_gain", "info_loss", "changed_value"] ∧
      ([nb && np, nb && !np, !nb && np,
        (!nb && !np) && (cb == cp), (!nb && !np) && (cb != cp)].count true = 1) := by
  intro tag nb np cb cp
  by_cases h : cb = cp
  · cases nb <;> cases np <;>
      simp [classifyAligned, diffClass, diffClassSpec, h, List.count]
  · have hbe : (cb == cp) = false := by
      simpa [beq_iff_eq] using h
    cases nb <;> cases np <;>
      simp [classifyAligned, diffClass, diffClassSpec, hbe, bne, List.count]

/-- C5: the date-normalization ladder adopts the month-first scheme exactly
when it makes both sides agree, otherwise the day-first scheme when that one
agrees, otherwise compares the original strings unchanged; consequently the
normalized sides are equal iff a scheme agrees or the original strings were
already equal — normalization never creates a mismatch nor an accidental
match. -/
theorem date_normalization_never_corrupts :
    ∀ (md dm : String → Option String) (b p : String),
      (isoAgree md b p = true →
        normalizeDates md dm b p = ((md b).getD b, (md p).getD p) ∧
        (normalizeDates md dm b p).1 = (normalizeDates md dm b p).2) ∧
      (isoAgree md b p = false → isoAgree dm b p = true →
        normalizeDates md dm b p = ((dm b).getD b, (dm p).getD p) ∧
        (normalizeDates md dm b p).1 = (normalizeDates md dm b p).2) ∧
      (isoAgree md b p = false → isoAgree dm b p = false →
        normalizeDates md dm b p = (b, p)) ∧
      ((normalizeDates md dm b p).1 = (normalizeDates md dm b p).2 ↔
        (isoAgree md b p = true ∨ isoAgree dm b p = true ∨ b = p)) := by
  intro md dm b p
  have agree_eq : ∀ (f : String → Option String), isoAgree f b p = true →
      (f b).getD b = (f p).getD p := by
    intro f hf
    unfold isoAgree at hf
    cases hfb : f b with
    | none => rw [hfb] at hf; cases hf
    | some x =>
      cases hfp : f p with
      | none => rw [hfb, hfp] at hf; cases hf
      | some y =>
        rw [hfb, hfp] at hf
        simp only [Option.getD_some]
        exact eq_of_beq hf
  refine ⟨?_, ?_, ?_, ?_⟩
  · intro h1
    refine ⟨by simp [normalizeDates, h1], ?_⟩
    simp [normalizeDates, h1, agree_eq md h1]
  · intro h1 h2
    refine ⟨by simp [normalizeDates, h1, h2], ?_⟩
    simp [normalizeDates, h1, h2, agree_eq dm h2]
  · intro h1 h2
    simp [normalizeDates, h1, h2]
  · by_cases h1 : isoAgree md b p = true
    · simp [normalizeDates, h1, agree_eq md h1]
    · have h1f : isoAgree md b p = false := by
        cases hx : isoAgree md b p
        · rfl
        · exact absurd hx h1
      by_cases h2 : isoAgree dm b p = true
      · simp [normalizeDates, h1f, h2, agree_eq dm h2]
      · have h2f : isoAgree dm b p = false := by
          cases hx : isoAgree dm b p
          · rfl
          · exact absurd hx h2
        simp [normalizeDates, h1f, h2f]

/-- Witness for C5's theorem at concrete inputs: with baseline "01/02/2023"
and pipeline "2023-02-01", the month-first scheme agrees and both sides
normalize to "2023-02-01". -/
theorem date_normalization_never_corrupts_witness :
    isoAgree parseMDW "01/02/2023" "2023-02-01" = true ∧
    normalizeDates parseMDW parseDMW "01/02/2023" "2023-02-01" =
      ("2023-02-01", "2023-02-01") := by
  refine ⟨by decide, ?_⟩
  have h := (date_normalization_never_corrupts parseMDW parseDMW
    "01/02/2023" "2023-02-01").1 (by decide)
  rw [h.1]
  decide

/-- C8: per dataset with a recorded historical rate, the validator errors
exactly when the drop in percentage points exceeds the threshold, and warns
exactly when the drop is strictly positive and at most the threshold; with
historical 0.99, current 0.90 and threshold 5 it errors, and with a 3-point
drop it warns. -/
theorem match_rate_regression_check :
    ∀ (br c m : ℚ),
      (matchRateCheck (some br) c m = some Verdict.error ↔ (br - c) * 100 > m) ∧
      (matchRateCheck (some br) c m = some Verdict.warning ↔
        0 < (br - c) * 100 ∧ (br - c) * 100 ≤ m) ∧
      matchRateCheck none c m = none ∧
      matchRateCheck (some (99 / 100)) (90 / 100) 5 = some Verdict.error ∧
      matchRateCheck (some (99 / 100)) (96 / 100) 5 = some Verdict.warning := by
  intro br c m
  refine ⟨?_, ?_, rfl, ?_, ?_⟩
  · simp only [matchRateCheck]
    split_ifs with h1 h2
    · simp [h1]
    · simp [h1]
    · simp [h1]
  · simp only [matchRateCheck]
    split_ifs with h1 h2
    · exact iff_of_false (by simp) (fun hc => absurd hc.2 (not_le.mpr h1))
    · exact iff_of_true rfl ⟨h2, le_of_not_lt h1⟩
    · exact iff_of_false (by simp) (fun hc => absurd hc.1 h2)
  · simp only [matchRateCheck]
    norm_num
  · simp only [matchRateCheck]
    norm_num

/-- C10: the summary record — the only produced artifact that reads the null
policy — is unchanged by the `count_info_loss_as_negative` toggle: the
`negative_count` it controls is computed by `compare_files` but feeds into no
reported field (the diff CSV and the presence CSV are built without reading
the policy at all). -/
theorem loss_toggle_invisible_in_outputs :
    ∀ (p : NullPolicy) (c : ClassCounts) (b : Bool)
      (total matched bo po mi bc ajk ac ari : Nat),
      mkSummaryRow { p with countInfoLossAsNegative := b } c
          total matched bo po mi bc ajk ac ari =
        mkSummaryRow p c total matched bo po mi bc ajk ac ari := by
  intro p c b total matched bo po mi bc ajk ac ari
  rfl

/-- C9 counterexample: two runs of the pipeline at different wall-clock times
on identical inputs produce different bytes in the aggregate summary CSV,
because its first line embeds `datetime.utcnow()`. -/
theorem summary_csv_not_byte_reproducible :
    summaryCsv "2025-11-04T00:00:00" [] ≠ summaryCsv "2025-11-04T00:00:01" [] := by
  decide

/-- C9 amended: everything in the aggregate summary CSV below its first line
is independent of the run timestamp — with unchanged inputs and
configuration, the data lines (and the separately written diff and presence
CSVs, which are pure functions of inputs) are byte-reproducible. -/
theorem summary_csv_tail_reproducible :
    ∀ (n1 n2 : String) (dataLines : List String),
      (summaryCsv n1 dataLines).tail = (summaryCsv n2 dataLines).tail := by
  intro n1 n2 dataLines
  rfl

/-- Witness for C7's theorem at a concrete input: " N/A " trims to a null
token and classifies as null with reason "unknown". -/
theorem canonicalize_null_matches_spec_witness :
    canonicalize_null defaultNullValues [] " N/A " =
      nullClassSpec defaultNullValues [] " N/A " ∧
    canonicalize_null defaultNullValues [] " N/A " = (true, "<NULL>", some "unknown") := by
  exact ⟨(canonicalize_null_matches_spec defaultNullValues [] " N/A ").1, by decide⟩

/-- Witness for C8's theorem at the spec's concrete numbers: a drop from 0.99
to 0.90 with threshold 5 exceeds the threshold, so the check errors. -/
theorem match_rate_regression_check_witness :
    ((99 : ℚ) / 100 - 90 / 100) * 100 > 5 ∧
    matchRateCheck (some (99 / 100)) (90 / 100) 5 = some Verdict.error := by
  exact ⟨by norm_num,
    (match_rate_regression_check (99 / 100) (90 / 100) 5).1.mpr (by norm_num)⟩

/-- The parts collected for one composite set: all constituents usable, and
then exactly the stripped values, else `None`. -/
theorem partsForSet_eq (nv : List String) (lookup : String → Option String) :
    ∀ s : List String,
      partsForSet nv lookup s =
        if s.all (colOK nv lookup) then some (s.map (setValOf lookup)) else none := by
  intro s
  induction s with
  | nil => simp [partsForSet]
  | cons c rest ih =>
    simp only [partsForSet, List.all_cons, List.map_cons]
    cases hl : lookup c with
    | none => simp [colOK, hl]
    | some raw =>
      by_cases hv : pyStrip raw = "" ∨ isNullStr nv (pyStrip raw) = true
      · have hc : colOK nv lookup c = false := by
          rcases hv with h | h
          · simp [colOK, hl, h]
          · simp [colOK, hl, h]
        simp only [if_pos hv, hc, Bool.false_and, if_neg]
        simp
      · have hc : colOK nv lookup c = true := by
          push_neg at hv
          simp [colOK, hl, hv.1, hv.2]
        have hval : setValOf lookup c = pyStrip raw := by
          simp [setValOf, hl]
        simp only [if_neg hv, ih, hc, Bool.true_and, hval]
        by_cases hall : rest.all (colOK nv lookup) = true
        · simp [hall]
        · simp [hall]

/-- C4: a composite key is produced exactly from the first configured
composite-column set that is complete for the row (all constituent column
values simultaneously non-null); no key is ever built from a set with a null
or missing constituent; the `Option` result carries at most one key per row;
and a key-less row is rejected by the composite alignment stage's filter
(`_has_key(None) = False`), so it falls through to the next stage. -/
theorem composite_key_completeness :
    ∀ (nv : List String) (lookup : String → Option String) (sets : List (List String)),
      (∀ k, compositeForRow nv lookup sets = some k →
        ∃ pre s post, sets = pre ++ s :: post ∧
          setCompleteB nv lookup s = true ∧
          (∀ s' ∈ pre, setCompleteB nv lookup s' = false) ∧
          k = String.intercalate "||" (s.map (setValOf lookup))) ∧
      (compositeForRow nv lookup sets = none →
        ∀ s ∈ sets, setCompleteB nv lookup s = false) ∧
      hasKeyOpt nv none = false := by
  intro nv lookup sets
  have step : ∀ (s : List String) (rest : List (List String)),
      compositeForRow nv lookup (s :: rest) =
        if setCompleteB nv lookup s = true then
          some (String.intercalate "||" (s.map (setValOf lookup)))
        else compositeForRow nv lookup rest := by
    intro s rest
    simp only [compositeForRow, partsForSet_eq]
    by_cases hall : s.all (colOK nv lookup) = true
    · by_cases hse : s = []
      · subst hse
        simp [setCompleteB]
      · simp [hall, setCompleteB, List.isEmpty_iff, hse]
    · simp [hall, setCompleteB]
  refine ⟨?_, ?_, rfl⟩
  · induction sets with
    | nil => intro k h; simp [compositeForRow] at h
    | cons s rest ih =>
      intro k h
      rw [step] at h
      by_cases hc : setCompleteB nv lookup s = true
      · rw [if_pos hc] at h
        refine ⟨[], s, rest, rfl, hc, by simp, (Option.some.injEq _ _ ▸ h).symm⟩
      · rw [if_neg hc] at h
        obtain ⟨pre, s', post, hsp, hcomp, hpre, hk⟩ := ih k h
        refine ⟨s :: pre, s', post, by simp [hsp], hcomp, ?_, hk⟩
        intro s'' hs''
        rcases List.mem_cons.mp hs'' with h1 | h1
        · subst h1
          exact Bool.not_eq_true _ ▸ eq_false_of_ne_true hc
        · exact hpre s'' h1
  · induction sets with
    | nil => intro _ s hs; simp at hs
    | cons s rest ih =>
      intro h s' hs'
      rw [step] at h
      by_cases hc : setCompleteB nv lookup s = true
      · rw [if_pos hc] at h
        cases h
      · rw [if_neg hc] at h
        rcases List.mem_cons.mp hs' with h1 | h1
        · subst h1
          exact eq_false_of_ne_true hc
        · exact ih h s' h1

/-- Witness for C4's theorem at the spec's §8 example: with `IMO = ""` and
`VESSEL_NAME = "FOO"`, the set `[IMO, VESSEL_NAME]` is incomplete, no
composite key is emitted, and the theorem reports the set incomplete. -/
theorem composite_key_completeness_witness :
    compositeForRow defaultNullValues lookupFoo [["IMO", "VESSEL_NAME"]] = none ∧
    setCompleteB defaultNullValues lookupFoo ["IMO", "VESSEL_NAME"] = false := by
  refine ⟨by decide, ?_⟩
  exact (composite_key_completeness defaultNullValues lookupFoo
    [["IMO", "VESSEL_NAME"]]).2.1 (by decide) ["IMO", "VESSEL_NAME"] (by simp)

/-- `List.contains` on row indices agrees with membership. -/
theorem idx_contains_iff {l : List Nat} {a : Nat} : l.contains a = true ↔ a ∈ l := by
  simp [List.contains, List.elem_iff]

/-- Removing the rows of a filtered selection by `row_index` membership is,
when indices are unique, the complementary filter. -/
theorem removeByIdx_filter (rows : List LRow) (p : LRow → Bool)
    (h : (rows.map (fun r => r.idx)).Nodup) :
    removeByIdx (rows.filter p) rows = rows.filter (fun r => !p r) := by
  unfold removeByIdx
  apply List.filter_congr
  intro r hr
  suffices hs : (((rows.filter p).map (fun u => u.idx)).contains r.idx) = p r by rw [hs]
  by_cases hp : p r = true
  · rw [hp]
    exact idx_contains_iff.mpr (List.mem_map.mpr ⟨r, List.mem_filter.mpr ⟨hr, hp⟩, rfl⟩)
  · rw [eq_false_of_ne_true hp]
    cases hc : (((rows.filter p).map (fun u => u.idx)).contains r.idx) with
    | false => rfl
    | true =>
      exfalso
      obtain ⟨u, hu, he⟩ := List.mem_map.mp (idx_contains_iff.mp hc)
      obtain ⟨hurows, hup⟩ := List.mem_filter.mp hu
      have heq := List.inj_on_of_nodup_map h hurows hr he
      rw [heq] at hup
      exact hp hup

/-- Splitting a pool of rows into a filtered selection and the
index-complement: a permutation of the pool, with indices still unique in the
complement. -/
theorem filter_split (rows : List LRow) (p : LRow → Bool)
    (h : (rows.map (fun r => r.idx)).Nodup) :
    (rows.filter p ++ removeByIdx (rows.filter p) rows).Perm rows ∧
    ((removeByIdx (rows.filter p) rows).map (fun r => r.idx)).Nodup := by
  rw [removeByIdx_filter rows p h]
  refine ⟨List.filter_append_perm p rows, ?_⟩
  exact List.Nodup.sublist (List.Sublist.map _ (List.filter_sublist rows)) h

/-- Two cascaded selections followed by the final index-complement
reconstitute the pool up to permutation, provided each selection is a filter
of its own pool and indices are unique. -/
theorem cascade_perm (rows s1 s2 : List LRow)
    (h : (rows.map (fun r => r.idx)).Nodup)
    (hq1 : ∃ q, s1 = rows.filter q)
    (hq2 : ∃ q, s2 = (removeByIdx s1 rows).filter q) :
    (s1 ++ s2 ++ removeByIdx s2 (removeByIdx s1 rows)).Perm rows := by
  obtain ⟨q1, e1⟩ := hq1
  obtain ⟨q2, e2⟩ := hq2
  have hr1 : removeByIdx s1 rows = rows.filter (fun r => !q1 r) := by
    rw [e1, removeByIdx_filter rows q1 h]
  have hnd1 : ((removeByIdx s1 rows).map (fun r => r.idx)).Nodup := by
    rw [hr1]
    exact List.Nodup.sublist (List.Sublist.map _ (List.filter_sublist rows)) h
  have hr2 : removeByIdx s2 (removeByIdx s1 rows) =
      (removeByIdx s1 rows).filter (fun r => !q2 r) := by
    rw [e2, removeByIdx_filter _ q2 hnd1]
  have pa : (s2 ++ removeByIdx s2 (removeByIdx s1 rows)).Perm (removeByIdx s1 rows) := by
    rw [hr2, e2]
    exact List.filter_append_perm q2 _
  have pb : (s1 ++ removeByIdx s1 rows).Perm rows := by
    rw [hr1, e1]
    exact List.filter_append_perm q1 rows
  have hfinal : (s1 ++ (s2 ++ removeByIdx s2 (removeByIdx s1 rows))).Perm rows :=
    (List.Perm.append_left s1 pa).trans pb
  simpa [List.append_assoc] using hfinal

/-- The baseline rows the join-key stage consumes are a filter of the
baseline pool. -/
theorem stage1BaseSel_filter (cfg : AlignConfig) (base pipe : List LRow) :
    ∃ q, stage1BaseSel cfg base pipe = base.filter q := by
  by_cases he : stage1Enabled cfg base pipe = true
  · refine ⟨fun r => dupFreePred cfg.nullValues selJK base pipe r
      && hasKeyOpt cfg.nullValues (selJK r), ?_⟩
    simp [stage1BaseSel, he, uniqueKeyed, keyedRows, List.filter_filter]
  · refine ⟨fun _ => false, ?_⟩
    simp [stage1BaseSel, he]

/-- The pipeline rows the join-key stage consumes are a filter of the
pipeline pool. -/
theorem stage1PipeSel_filter (cfg : AlignConfig) (base pipe : List LRow) :
    ∃ q, stage1PipeSel cfg base pipe = pipe.filter q := by
  by_cases he : stage1Enabled cfg base pipe = true
  · refine ⟨fun r => dupFreePred cfg.nullValues selJK base pipe r
      && hasKeyOpt cfg.nullValues (selJK r), ?_⟩
    simp [stage1PipeSel, he, uniqueKeyed, keyedRows, List.filter_filter]
  · refine ⟨fun _ => false, ?_⟩
    simp [stage1PipeSel, he]

/-- The baseline rows the composite stage consumes are a filter of the
post-stage-1 baseline pool. -/
theorem stage2BaseSel_filter (cfg : AlignConfig) (base pipe : List LRow) :
    ∃ q, stage2BaseSel cfg base pipe =
      (removeByIdx (stage1BaseSel cfg base pipe) base).filter q := by
  by_cases he : stage2Enabled cfg base = true
  · refine ⟨fun r => dupFreePred cfg.nullValues selCK (rem1Base cfg base pipe)
      (rem1Pipe cfg base pipe) r && hasKeyOpt cfg.nullValues (selCK r), ?_⟩
    simp [stage2BaseSel, he, uniqueKeyed, keyedRows, List.filter_filter, rem1Base]
  · refine ⟨fun _ => false, ?_⟩
    simp [stage2BaseSel, he]

/-- The pipeline rows the composite stage consumes are a filter of the
post-stage-1 pipeline pool. -/
theorem stage2PipeSel_filter (cfg : AlignConfig) (base pipe : List LRow) :
    ∃ q, stage2PipeSel cfg base pipe =
      (removeByIdx (stage1PipeSel cfg base pipe) pipe).filter q := by
  by_cases he : stage2Enabled cfg base = true
  · refine ⟨fun r => dupFreePred cfg.nullValues selCK (rem1Base cfg base pipe)
      (rem1Pipe cfg base pipe) r && hasKeyOpt cfg.nullValues (selCK r), ?_⟩
    simp [stage2PipeSel, he, uniqueKeyed, keyedRows, List.filter_filter, rem1Pipe]
  · refine ⟨fun _ => false, ?_⟩
    simp [stage2PipeSel, he]

/-- Base-side partition of the cascade. -/
theorem align_base_partition (cfg : AlignConfig) (base pipe : List LRow)
    (hb : (base.map (fun r => r.idx)).Nodup) :
    ((alignAll cfg base pipe).s1Base ++ (alignAll cfg base pipe).s2Base
      ++ (alignAll cfg base pipe).s3Base).Perm base := by
  have h := cascade_perm base (stage1BaseSel cfg base pipe) (stage2BaseSel cfg base pipe)
    hb (stage1BaseSel_filter cfg base pipe) (stage2BaseSel_filter cfg base pipe)
  simpa [alignAll, rem2Base, rem1Base] using h

/-- Pipe-side partition of the cascade. -/
theorem align_pipe_partition (cfg : AlignConfig) (base pipe : List LRow)
    (hp : (pipe.map (fun r => r.idx)).Nodup) :
    ((alignAll cfg base pipe).s1Pipe ++ (alignAll cfg base pipe).s2Pipe
      ++ (alignAll cfg base pipe).s3Pipe).Perm pipe := by
  have h := cascade_perm pipe (stage1PipeSel cfg base pipe) (stage2PipeSel cfg base pipe)
    hp (stage1PipeSel_filter cfg base pipe) (stage2PipeSel_filter cfg base pipe)
  simpa [alignAll, rem2Pipe, rem1Pipe] using h

/-- C2 amended: when row indices are unique on each side, every row of each
side is consumed by exactly one of the three alignment stages — the
stage-consumed row lists concatenate to a permutation of the input (no row is
double-counted or silently dropped, and each later stage only sees rows not
consumed earlier) — and the per-stage `aligned_counts` sum to the total
number of aligned cell pairs (the `both`-tagged records of the concatenated
outer merges), not to the number of distinct rows. -/
theorem alignment_cascade_partition :
    ∀ (cfg : AlignConfig) (base pipe : List LRow),
      (base.map (fun r => r.idx)).Nodup →
      (pipe.map (fun r => r.idx)).Nodup →
      ((alignAll cfg base pipe).s1Base ++ (alignAll cfg base pipe).s2Base
        ++ (alignAll cfg base pipe).s3Base).Perm base ∧
      ((alignAll cfg base pipe).s1Pipe ++ (alignAll cfg base pipe).s2Pipe
        ++ (alignAll cfg base pipe).s3Pipe).Perm pipe ∧
      (alignAll cfg base pipe).alignedJoinKey + (alignAll cfg base pipe).alignedComposite
          + (alignAll cfg base pipe).alignedRowIndex
        = ((alignAll cfg base pipe).tags1 ++ (alignAll cfg base pipe).tags2
            ++ (alignAll cfg base pipe).tags3).count MTag.both := by
  intro cfg base pipe hb hp
  refine ⟨align_base_partition cfg base pipe hb, align_pipe_partition cfg base pipe hp, ?_⟩
  simp [alignAll, List.count_append, Nat.add_assoc]

/-- Witness for C2's amended theorem at a concrete input with a configured
join key and duplicated key values. -/
theorem alignment_cascade_partition_witness :
    ((baseDup.map (fun r => r.idx)).Nodup ∧ (pipeDup.map (fun r => r.idx)).Nodup) ∧
    ((alignAll cfgJoinKey baseDup pipeDup).s1Base ++ (alignAll cfgJoinKey baseDup pipeDup).s2Base
      ++ (alignAll cfgJoinKey baseDup pipeDup).s3Base).Perm baseDup := by
  refine ⟨⟨by decide, by decide⟩, ?_⟩
  exact (alignment_cascade_partition cfgJoinKey baseDup pipeDup (by decide) (by decide)).1

/-- C2 counterexample: on a concrete pair with no keys configured, the
per-stage aligned counts sum to 7 — the number of aligned cell pairs — while
the numbers of rows attempted are 2 per side (4 in total, 2 distinct row
indices) and the numbers of cells are 8 per side (16 in total): the claimed
equation `count(join_key) + count(composite) + count(row_index) = total
distinct rows attempted` fails under every reading of the row total. -/
theorem alignment_counts_not_row_counts :
    (alignAll cfgNoKeys baseEx pipeEx).alignedJoinKey
        + (alignAll cfgNoKeys baseEx pipeEx).alignedComposite
        + (alignAll cfgNoKeys baseEx pipeEx).alignedRowIndex = 7 ∧
    baseEx.length = 2 ∧ pipeEx.length = 2 ∧
    ((baseEx ++ pipeEx).map (fun r => r.idx)).dedup.length = 2 ∧
    (baseEx.map (fun r => r.cols.length)).sum = 8 ∧
    (pipeEx.map (fun r => r.cols.length)).sum = 8 ∧
    (7 : Nat) ≠ 2 ∧ (7 : Nat) ≠ 4 ∧ (7 : Nat) ≠ 8 ∧ (7 : Nat) ≠ 16 := by
  decide

/-- C3: within each side independently, a row whose join-key value is
duplicated across several rows of that side is excluded from the join-key
stage (it is never among the rows that stage aligns on its side) and instead
passes through to a later stage (composite or row-index).  The first conjunct
covers baseline rows, the second pipeline rows. -/
theorem join_key_duplicates_excluded :
    ∀ (cfg : AlignConfig) (base pipe : List LRow),
      (∀ (r : LRow) (k : String),
        (base.map (fun x => x.idx)).Nodup →
        r ∈ base → r.jk = some k →
        dupKey cfg.nullValues selJK base k = true →
        r ∉ (alignAll cfg base pipe).s1Base ∧
        (r ∈ (alignAll cfg base pipe).s2Base ∨ r ∈ (alignAll cfg base pipe).s3Base)) ∧
      (∀ (r : LRow) (k : String),
        (pipe.map (fun x => x.idx)).Nodup →
        r ∈ pipe → r.jk = some k →
        dupKey cfg.nullValues selJK pipe k = true →
        r ∉ (alignAll cfg base pipe).s1Pipe ∧
        (r ∈ (alignAll cfg base pipe).s2Pipe ∨ r ∈ (alignAll cfg base pipe).s3Pipe)) := by
  intro cfg base pipe
  constructor
  · intro r k hb hr hjk hdup
    have hnot : r ∉ (alignAll cfg base pipe).s1Base := by
      intro hmem
      simp only [alignAll] at hmem
      unfold stage1BaseSel at hmem
      by_cases he : stage1Enabled cfg base pipe = true
      · rw [if_pos he] at hmem
        unfold uniqueKeyed at hmem
        have hpred := (List.mem_filter.mp hmem).2
        unfold dupFreePred at hpred
        rw [show selJK r = some k from hjk] at hpred
        simp only [Bool.not_eq_true'] at hpred
        rw [Bool.or_eq_false_iff] at hpred
        exact absurd hdup (by rw [hpred.1]; exact Bool.false_ne_true)
      · rw [if_neg he] at hmem
        exact absurd hmem (List.not_mem_nil r)
    refine ⟨hnot, ?_⟩
    have hperm := align_base_partition cfg base pipe hb
    have hmem := hperm.mem_iff.mpr hr
    rcases List.mem_append.mp hmem with h1 | h2
    · rcases List.mem_append.mp h1 with h1a | h1b
      · exact absurd h1a hnot
      · exact Or.inl h1b
    · exact Or.inr h2
  · intro r k hp hr hjk hdup
    have hnot : r ∉ (alignAll cfg base pipe).s1Pipe := by
      intro hmem
      simp only [alignAll] at hmem
      unfold stage1PipeSel at hmem
      by_cases he : stage1Enabled cfg base pipe = true
      · rw [if_pos he] at hmem
        unfold uniqueKeyed at hmem
        have hpred := (List.mem_filter.mp hmem).2
        unfold dupFreePred at hpred
        rw [show selJK r = some k from hjk] at hpred
        simp only [Bool.not_eq_true'] at hpred
        rw [Bool.or_eq_false_iff] at hpred
        exact absurd hdup (by rw [hpred.2]; exact Bool.false_ne_true)
      · rw [if_neg he] at hmem
        exact absurd hmem (List.not_mem_nil r)
    refine ⟨hnot, ?_⟩
    have hperm := align_pipe_partition cfg base pipe hp
    have hmem := hperm.mem_iff.mpr hr
    rcases List.mem_append.mp hmem with h1 | h2
    · rcases List.mem_append.mp h1 with h1a | h1b
      · exact absurd h1a hnot
      · exact Or.inl h1b
    · exact Or.inr h2

/-- Witness for C3's theorem on both sides: two baseline rows share join key
"K" and two pipeline rows share join key "P"; the first row of each side is
excluded from the join-key stage on its own side and lands in a later
stage's pool. -/
theorem join_key_duplicates_excluded_witness :
    ((dupKey cfgJoinKey.nullValues selJK baseDup "K" = true ∧
        { idx := 0, jk := some "K", ck := none, cols := ["A"] } ∈ baseDup) ∧
      (dupKey cfgJoinKey.nullValues selJK pipeDup2 "P" = true ∧
        { idx := 5, jk := some "P", ck := none, cols := ["A"] } ∈ pipeDup2)) ∧
    ({ idx := 0, jk := some "K", ck := none, cols := ["A"] } ∉
        (alignAll cfgJoinKey baseDup pipeDup2).s1Base ∧
      ({ idx := 0, jk := some "K", ck := none, cols := ["A"] } ∈
          (alignAll cfgJoinKey baseDup pipeDup2).s2Base ∨
        { idx := 0, jk := some "K", ck := none, cols := ["A"] } ∈
          (alignAll cfgJoinKey baseDup pipeDup2).s3Base)) ∧
    ({ idx := 5, jk := some "P", ck := none, cols := ["A"] } ∉
        (alignAll cfgJoinKey baseDup pipeDup2).s1Pipe ∧
      ({ idx := 5, jk := some "P", ck := none, cols := ["A"] } ∈
          (alignAll cfgJoinKey baseDup pipeDup2).s2Pipe ∨
        { idx := 5, jk := some "P", ck := none, cols := ["A"] } ∈
          (alignAll cfgJoinKey baseDup pipeDup2).s3Pipe)) := by
  refine ⟨⟨⟨by decide, by decide⟩, ⟨by decide, by decide⟩⟩, ?_, ?_⟩
  · exact (join_key_duplicates_excluded cfgJoinKey baseDup pipeDup2).1
      { idx := 0, jk := some "K", ck := none, cols := ["A"] } "K"
      (by decide) (by decide) (by decide) (by decide)
  · exact (join_key_duplicates_excluded cfgJoinKey baseDup pipeDup2).2
      { idx := 5, jk := some "P", ck := none, cols := ["A"] } "P"
      (by decide) (by decide) (by decide) (by decide)

/-- An underscore is not alphanumeric. -/
theorem isAlnumU_underscore : isAlnumU '_' = false := by decide

/-- Characters that the collapse keeps are fixed by `Char.toUpper`. -/
theorem toUpper_fixed {c : Char} (h : isAlnumU c = true ∨ c = '_') :
    c.toUpper = c := by
  rcases h with h | h
  · have hn : c.toNat ≤ 95 := by
      simp only [isAlnumU, Bool.or_eq_true, Bool.and_eq_true, decide_eq_true_eq] at h
      rcases h with ⟨_, h2⟩ | ⟨_, h2⟩
      · have hv : c.val ≤ (90 : UInt32) := Char.le_def.mp h2
        exact le_trans hv (by decide)
      · have hv : c.val ≤ (57 : UInt32) := Char.le_def.mp h2
        exact le_trans hv (by decide)
    unfold Char.toUpper
    rw [if_neg]
    rintro ⟨h97, _⟩
    omega
  · subst h
    decide

/-- Every character of a collapsed list is alphanumeric or an underscore. -/
theorem mem_collapseAux :
    ∀ (l : List Char) (b : Bool) (c : Char), c ∈ collapseAux b l →
      isAlnumU c = true ∨ c = '_' := by
  intro l
  induction l with
  | nil => intro b c hc; simp [collapseAux] at hc
  | cons d rest ih =>
    intro b c hc
    by_cases hd : isAlnumU d = true
    · simp only [collapseAux, hd, if_true, List.mem_cons] at hc
      rcases hc with h | h
      · subst h; exact Or.inl hd
      · exact ih false c h
    · cases b with
      | true =>
        simp only [collapseAux, hd, Bool.false_eq_true, if_false, if_true] at hc
        exact ih true c hc
      | false =>
        simp only [collapseAux, hd, Bool.false_eq_true, if_false, List.mem_cons] at hc
        rcases hc with h | h
        · exact Or.inr h
        · exact ih true c h

/-- Collapsed output satisfies the collapsed invariant. -/
theorem collapsedB_collapseAux :
    ∀ (l : List Char) (b : Bool), collapsedB b (collapseAux b l) = true := by
  intro l
  induction l with
  | nil => intro b; simp [collapseAux, collapsedB]
  | cons c rest ih =>
    intro b
    by_cases hc : isAlnumU c = true
    · simp only [collapseAux, hc, if_true, collapsedB]
      exact ih false
    · cases b with
      | true =>
        simp only [collapseAux, hc, Bool.false_eq_true, if_false, if_true]
        exact ih true
      | false =>
        simp only [collapseAux, hc, Bool.false_eq_true, if_false, collapsedB,
          isAlnumU_underscore]
        simpa using ih true

/-- Lists satisfying the collapsed invariant are fixed by the collapse. -/
theorem collapseAux_fixpoint :
    ∀ (l : List Char) (b : Bool), collapsedB b l = true → collapseAux b l = l := by
  intro l
  induction l with
  | nil => intro b _; rfl
  | cons c rest ih =>
    intro b h
    by_cases hc : isAlnumU c = true
    · simp only [collapsedB, hc, if_true] at h
      simp only [collapseAux, hc, if_true, ih false h]
    · simp only [collapsedB, hc, Bool.false_eq_true, if_false, Bool.and_eq_true,
        Bool.not_eq_true'] at h
      obtain ⟨⟨hceq, hb⟩, hrest⟩ := h
      have hcu : c = '_' := by simpa [beq_iff_eq] using hceq
      subst hcu hb
      simp only [collapseAux, isAlnumU_underscore, Bool.false_eq_true, if_false,
        ih true hrest]

/-- A list satisfying the after-underscore invariant also satisfies the
plain invariant (its head cannot be an underscore). -/
theorem collapsedB_false_of_true {l : List Char} (h : collapsedB true l = true) :
    collapsedB false l = true := by
  cases l with
  | nil => rfl
  | cons c rest =>
    by_cases hc : isAlnumU c = true
    · simpa [collapsedB, hc] using h
    · simp [collapsedB, hc] at h

/-- A list satisfying the after-underscore invariant has no leading
underscore to strip. -/
theorem lstripU_of_collapsedB_true {l : List Char} (h : collapsedB true l = true) :
    lstripU l = l := by
  cases l with
  | nil => rfl
  | cons c rest =>
    by_cases hc : isAlnumU c = true
    · have hne : (c == '_') = false := by
        cases hcu : c == '_'
        · rfl
        · have : c = '_' := by simpa [beq_iff_eq] using hcu
          rw [this] at hc
          exact absurd hc (by simp [isAlnumU_underscore])
      simp [lstripU, List.dropWhile_cons, hne]
    · simp [collapsedB, hc] at h

/-- Stripping leading underscores preserves the collapsed invariant. -/
theorem collapsedB_lstrip {l : List Char} (h : collapsedB false l = true) :
    collapsedB false (lstripU l) = true := by
  cases l with
  | nil => simpa [lstripU] using h
  | cons c rest =>
    by_cases hc : isAlnumU c = true
    · have hne : (c == '_') = false := by
        cases hcu : c == '_'
        · rfl
        · have : c = '_' := by simpa [beq_iff_eq] using hcu
          rw [this] at hc
          exact absurd hc (by simp [isAlnumU_underscore])
      simpa [lstripU, List.dropWhile_cons, hne] using h
    · simp only [collapsedB, hc, Bool.false_eq_true, if_false, Bool.and_eq_true,
        Bool.not_eq_true'] at h
      obtain ⟨⟨hceq, _⟩, hrest⟩ := h
      have hlr : lstripU (c :: rest) = rest := by
        have hcu : (c == '_') = true := hceq
        have : lstripU rest = rest := lstripU_of_collapsedB_true hrest
        simpa [lstripU, List.dropWhile_cons, hcu] using this
      rw [hlr]
      exact collapsedB_false_of_true hrest

/-- Stripping trailing underscores preserves the collapsed invariant. -/
theorem collapsedB_rstrip :
    ∀ (l : List Char) (b : Bool), collapsedB b l = true →
      collapsedB b (rstripU l) = true := by
  intro l
  induction l with
  | nil => intro b h; exact h
  | cons c rest ih =>
    intro b h
    by_cases hc : isAlnumU c = true
    · simp only [collapsedB, hc, if_true] at h
      have hne : (c == '_') = false := by
        cases hcu : c == '_'
        · rfl
        · have : c = '_' := by simpa [beq_iff_eq] using hcu
          rw [this] at hc
          exact absurd hc (by simp [isAlnumU_underscore])
      simp only [rstripU, hne, Bool.and_false, Bool.false_eq_true, if_false,
        collapsedB, hc, if_true]
      exact ih false h
    · simp only [collapsedB, hc, Bool.false_eq_true, if_false, Bool.and_eq_true,
        Bool.not_eq_true'] at h
      obtain ⟨⟨hceq, hb⟩, hrest⟩ := h
      subst hb
      cases hre : (rstripU rest).isEmpty with
      | true =>
        simp only [rstripU, hre, hceq, Bool.and_true, if_true]
        rfl
      | false =>
        simp only [rstripU, hre, hceq, Bool.and_true, Bool.false_eq_true, if_false,
          collapsedB, ]
        have hcu : c = '_' := by simpa [beq_iff_eq] using hceq
        subst hcu
        simp only [isAlnumU_underscore, Bool.false_eq_true, if_false, hceq,
          Bool.not_false, Bool.true_and]
        exact ih true hrest

/-- Stripping trailing underscores is idempotent. -/
theorem rstripU_idem : ∀ l : List Char, rstripU (rstripU l) = rstripU l := by
  intro l
  induction l with
  | nil => rfl
  | cons c rest ih =>
    cases hcond : ((rstripU rest).isEmpty && (c == '_')) with
    | true =>
      simp only [rstripU, hcond, if_true]
    | false =>
      simp only [rstripU, hcond, Bool.false_eq_true, if_false]
      simp only [rstripU, ih, hcond, Bool.false_eq_true, if_false]

/-- Stripping trailing underscores returns the empty list or keeps the head. -/
theorem rstripU_head (c : Char) (rest : List Char) :
    rstripU (c :: rest) = [] ∨ ∃ t, rstripU (c :: rest) = c :: t := by
  cases hcond : ((rstripU rest).isEmpty && (c == '_')) with
  | true =>
    refine Or.inl ?_
    simp only [rstripU, hcond, if_true]
  | false =>
    refine Or.inr ⟨rstripU rest, ?_⟩
    simp only [rstripU, hcond, Bool.false_eq_true, if_false]

/-- After stripping leading underscores, the head is not an underscore. -/
theorem lstripU_head (l : List Char) :
    lstripU l = [] ∨ ∃ c t, lstripU l = c :: t ∧ (c == '_') = false := by
  induction l with
  | nil => exact Or.inl rfl
  | cons c rest ih =>
    cases hcu : (c == '_') with
    | true =>
      have : lstripU (c :: rest) = lstripU rest := by
        simp [lstripU, List.dropWhile_cons, hcu]
      rw [this]
      exact ih
    | false =>
      refine Or.inr ⟨c, rest, ?_, hcu⟩
      simp [lstripU, List.dropWhile_cons, hcu]

/-- Characters survive trailing-underscore stripping only from the input. -/
theorem mem_rstripU : ∀ (l : List Char) (c : Char), c ∈ rstripU l → c ∈ l := by
  intro l
  induction l with
  | nil => intro c hc; exact absurd hc (List.not_mem_nil c)
  | cons d rest ih =>
    intro c hc
    cases hcond : ((rstripU rest).isEmpty && (d == '_')) with
    | true =>
      rw [rstripU, hcond] at hc
      simp at hc
    | false =>
      rw [rstripU, hcond] at hc
      simp only [Bool.false_eq_true, if_false, List.mem_cons] at hc
      rcases hc with h | h
      · exact List.mem_cons.mpr (Or.inl h)
      · exact List.mem_cons.mpr (Or.inr (ih c h))

/-- Every character of the base canonical form is alphanumeric or an
underscore. -/
theorem mem_canonBase (l : List Char) (c : Char) (hc : c ∈ canonBase l) :
    isAlnumU c = true ∨ c = '_' := by
  unfold canonBase at hc
  have h1 : c ∈ lstripU (collapseAux false (l.map Char.toUpper)) := mem_rstripU _ c hc
  have h2 : c ∈ collapseAux false (l.map Char.toUpper) :=
    List.Sublist.mem h1 (List.dropWhile_sublist _)
  exact mem_collapseAux _ false c h2

/-- The base canonical transform of `canon_col_name` is idempotent. -/
theorem canonBase_idem (l : List Char) : canonBase (canonBase l) = canonBase l := by
  have hmap : (canonBase l).map Char.toUpper = canonBase l := by
    have := List.map_congr_left (l := canonBase l)
      (f := Char.toUpper) (g := id) (fun c hc => toUpper_fixed (mem_canonBase l c hc))
    simpa using this
  have hX : collapsedB false (collapseAux false (l.map Char.toUpper)) = true :=
    collapsedB_collapseAux _ false
  have hL : collapsedB false (lstripU (collapseAux false (l.map Char.toUpper))) = true :=
    collapsedB_lstrip hX
  have hY : collapsedB false (canonBase l) = true := collapsedB_rstrip _ false hL
  have hfix : collapseAux false (canonBase l) = canonBase l := collapseAux_fixpoint _ false hY
  have hls : lstripU (canonBase l) = canonBase l := by
    unfold canonBase
    rcases lstripU_head (collapseAux false (l.map Char.toUpper)) with h | ⟨c, t, heq, hne⟩
    · rw [h]
      rfl
    · rw [heq]
      rcases rstripU_head c t with h2 | ⟨t', h2⟩
      · rw [h2]
        rfl
      · rw [h2]
        simp [lstripU, List.dropWhile_cons, hne]
  have hrs : rstripU (canonBase l) = canonBase l := by
    unfold canonBase
    exact rstripU_idem _
  show rstripU (lstripU (collapseAux false ((canonBase l).map Char.toUpper))) = canonBase l
  rw [hmap, hfix, hls, hrs]

/-- C6 counterexample: with the alias map `{"A" ↦ "B C"}` — whose target
"B C" is not itself further aliased, so the claim's proviso holds — the
canonicalization is not idempotent: `canon("A") = "B C"` but
`canon(canon("A")) = "B_C"`.  The YAML loader only uppercases alias targets
(line 82), so a non-canonical target like "B C" is accepted. -/
theorem canon_col_name_not_idempotent :
    ([("A", "B C")].find? (fun q => q.1 == "B C") = none) ∧
    canon_col_name [("A", "B C")] "A" = "B C" ∧
    canon_col_name [("A", "B C")] (canon_col_name [("A", "B C")] "A") = "B_C" ∧
    canon_col_name [("A", "B C")] (canon_col_name [("A", "B C")] "A") ≠
      canon_col_name [("A", "B C")] "A" := by
  refine ⟨by decide, by decide, by decide, by decide⟩

/-- C6 amended: `canon_col_name` is idempotent provided every alias target is
in canonical form (a fixed point of the base transform) and is not itself
further aliased.  (The claim's proviso alone — targets not further aliased —
is not sufficient, per the counterexample.) -/
theorem canon_col_name_idempotent :
    ∀ (aliases : List (String × String)) (x : String),
      (∀ p ∈ aliases, canonBase p.2.toList = p.2.toList ∧
        aliases.find? (fun q => q.1 == p.2) = none) →
      canon_col_name aliases (canon_col_name aliases x) = canon_col_name aliases x := by
  intro aliases x h
  have hcc : ∀ s : String, canon_col_name aliases s =
      ((aliases.find? (fun p => p.1 == String.mk (canonBase s.toList))).map
        (fun p => p.2)).getD (String.mk (canonBase s.toList)) := fun s => rfl
  cases hf : aliases.find? (fun p => p.1 == String.mk (canonBase x.toList)) with
  | some pr =>
    have houter : canon_col_name aliases x = pr.2 := by
      rw [hcc x, hf]
      rfl
    rw [houter]
    have hmem := List.mem_of_find?_eq_some hf
    obtain ⟨hcanon, hnone⟩ := h pr hmem
    have hmk : String.mk (canonBase pr.2.toList) = pr.2 := by
      rw [hcanon]
      rfl
    rw [hcc pr.2, hmk, hnone]
    rfl
  | none =>
    have houter : canon_col_name aliases x = String.mk (canonBase x.toList) := by
      rw [hcc x, hf]
      rfl
    rw [houter]
    have htl : (String.mk (canonBase x.toList)).toList = canonBase x.toList := rfl
    rw [hcc, htl, canonBase_idem, hf]
    rfl

/-- Witness for C6's amended theorem: the default alias map (targets
canonical, none further aliased) on a concrete raw header. -/
theorem canon_col_name_idempotent_witness :
    ((∀ p ∈ [("IMO_NUMBER", "IMO")], canonBase (p.2).toList = (p.2).toList ∧
        [("IMO_NUMBER", "IMO")].find? (fun q => q.1 == p.2) = none) ∧
      canon_col_name [("IMO_NUMBER", "IMO")] "Imo Number" = "IMO") ∧
    canon_col_name [("IMO_NUMBER", "IMO")]
        (canon_col_name [("IMO_NUMBER", "IMO")] "Imo Number") =
      canon_col_name [("IMO_NUMBER", "IMO")] "Imo Number" := by
  refine ⟨⟨by decide, by decide⟩, ?_⟩
  exact canon_col_name_idempotent [("IMO_NUMBER", "IMO")] "Imo Number" (by decide)

end Recon
